import Mathlib

set_option linter.unusedVariables false

/-!
Verification of the arrangement-hub XML diff engine and MusicXML overlay
projector against its specification.  The definitions below are a shallow
embedding of src/server/src/utils/xmldiff.ts and
src/server/src/utils/musicxmldiff.ts: module-level mutable state (the two
memoization maps and the id counter) is threaded explicitly, JavaScript
exceptions are modelled with Except, and JavaScript numbers (always
integral in this code) are modelled with Nat/Int.
-/

namespace ArrangementHub

/-! ## Token types (xmldiff.ts lines 5-35) -/

inductive XMLDiffTokenEditType where
  | INSERT
  | DELETE
  | CHANGE
deriving DecidableEq, Repr

inductive XMLDiffTokenNodeType where
  | ELEMENT
  | ATTRIBUTE
  | CONTENT
deriving DecidableEq, Repr

/-- One emitted diff token.  The TypeScript union of three record shapes is
flattened into a single structure with optional fields: ELEMENT tokens carry
a name and no values, ATTRIBUTE tokens carry a name and optional values,
CONTENT tokens carry optional values and no name. -/
structure XMLDiffToken where
  editType : XMLDiffTokenEditType
  nodeType : XMLDiffTokenNodeType
  xpath : String
  name : Option String := none
  oldValue : Option String := none
  newValue : Option String := none
deriving DecidableEq, Repr

/-! ## Node trees

`RawNode` is the shape of one element in the output of the external
fast-xml-parser as consumed by `toUNode`: a tag name, an attribute record,
the concatenated direct text, and the element children.  `UNode` is the
internal node structure of xmldiff.ts (lines 38-44): the same data plus the
dense integer id handed out by the `nextId` counter. -/

inductive RawNode where
  | mk (name : String) (attrs : List (String × String)) (text : String)
      (children : List RawNode)
deriving Repr

def RawNode.name : RawNode → String
  | .mk n _ _ _ => n

def RawNode.attrs : RawNode → List (String × String)
  | .mk _ a _ _ => a

def RawNode.text : RawNode → String
  | .mk _ _ t _ => t

def RawNode.children : RawNode → List RawNode
  | .mk _ _ _ c => c

inductive UNode where
  | mk (id : Nat) (name : String) (attrs : List (String × String))
      (text : String) (children : List UNode)
deriving Repr

def UNode.id : UNode → Nat
  | .mk i _ _ _ _ => i

def UNode.name : UNode → String
  | .mk _ n _ _ _ => n

def UNode.attrs : UNode → List (String × String)
  | .mk _ _ a _ _ => a

def UNode.text : UNode → String
  | .mk _ _ _ t _ => t

def UNode.children : UNode → List UNode
  | .mk _ _ _ _ c => c

mutual

/-- Number of nodes of a raw tree (used to pick a sufficient fuel value). -/
def RawNode.size : RawNode → Nat
  | .mk _ _ _ c => 1 + RawNode.sizeList c

/-- Number of nodes of a list of raw trees. -/
def RawNode.sizeList : List RawNode → Nat
  | [] => 0
  | t :: ts => RawNode.size t + RawNode.sizeList ts

end

mutual

/-- Id assignment of `toUNode` (xmldiff.ts line 67): the node takes the
current counter value and the counter is incremented before the children are
converted in document order, so ids are handed out in preorder. -/
def assignIds : RawNode → Nat → UNode × Nat
  | .mk n a t c, next =>
    let (cs, next') := assignIdsList c (next + 1)
    (.mk next n a t cs, next')

/-- Id assignment over a child list, left to right. -/
def assignIdsList : List RawNode → Nat → List UNode × Nat
  | [], next => ([], next)
  | t :: ts, next =>
    let (u, next') := assignIds t next
    let (us, next'') := assignIdsList ts next'
    (u :: us, next'')

end

/-- Root conversion of `parseXMLToUNode` (xmldiff.ts lines 112-117): the
`nextId` counter is reset to 1 before each parse, so both the old and the
new tree have ids starting at 1. -/
def parseTree (t : RawNode) : UNode := (assignIds t 1).1

/-! ## Memoization state (xmldiff.ts lines 124-126)

`sub` models `subtreeCostMemo : Map<number, number>` keyed by the node id
only; `pair` models `pairCostMemo : Map<string, number>` whose string key
`"a.id:b.id"` is in bijection with the pair of ids. -/

structure Memo where
  sub : List (Nat × Nat)
  pair : List ((Nat × Nat) × Nat)
deriving DecidableEq, Repr

def Memo.empty : Memo := ⟨[], []⟩

def Memo.findSub (st : Memo) (i : Nat) : Option Nat :=
  (st.sub.find? (fun e => e.1 = i)).map (·.2)

def Memo.insertSub (st : Memo) (i c : Nat) : Memo :=
  { st with sub := (i, c) :: st.sub }

def Memo.findPair (st : Memo) (k : Nat × Nat) : Option Nat :=
  (st.pair.find? (fun e => e.1 = k)).map (·.2)

def Memo.insertPair (st : Memo) (k : Nat × Nat) (c : Nat) : Memo :=
  { st with pair := (k, c) :: st.pair }

/-- The INF sentinel of xmldiff.ts line 124 (`1e9`). -/
def INF : Nat := 1000000000

/-! ## The Hungarian algorithm (xmldiff.ts lines 202-256)

A faithful translation of the imperative e-maxx style implementation.  The
arrays `u`, `v`, `p`, `way`, `minv`, `used` of length n+1 become lists;
JavaScript `Infinity` (used only to initialise `minv` and `delta`) becomes
`none` in `Option Int`.  The two do-while loops terminate after at most n+1
iterations; they are given that much fuel, and the (unreachable for the
matrices the diff builds) exhaustion case returns the state unchanged. -/

/-- One pass of the inner scan: for every unused column `j` in 1..n update
`minv[j]` and `way[j]` with the reduced cost of edge (i0, j). -/
def hungarianScan (mat : List (List Int)) (u v : List Int) (i0 j0 n : Nat)
    (minv : List (Option Int)) (way : List Nat) (used : List Bool) :
    List (Option Int) × List Nat :=
  (List.range n).foldl
    (fun acc jm1 =>
      let j := jm1 + 1
      if used.getD j false then acc
      else
        let cur : Int :=
          ((mat.getD (i0 - 1) []).getD (j - 1) 0) - u.getD i0 0 - v.getD j 0
        match acc.1.getD j none with
        | some m =>
          if cur < m then (acc.1.set j (some cur), acc.2.set j j0) else acc
        | none => (acc.1.set j (some cur), acc.2.set j j0))
    (minv, way)

/-- Minimum of `minv` over the unused columns 1..n together with the first
column attaining it (the JS loop updates `delta`/`j1` on strict
improvement, which selects the first argmin). -/
def hungarianDelta (minv : List (Option Int)) (used : List Bool) (n : Nat) :
    Option Int × Nat :=
  (List.range n).foldl
    (fun acc jm1 =>
      let j := jm1 + 1
      if used.getD j false then acc
      else
        match minv.getD j none, acc.1 with
        | some m, some d => if m < d then (some m, j) else acc
        | some m, none => (some m, j)
        | none, _ => acc)
    (none, 0)

/-- Potential update once `delta` is known: used columns shift `u`/`v`,
unused columns shift `minv`. -/
def hungarianApply (delta : Int) (p : List Nat) (n : Nat)
    (u v : List Int) (minv : List (Option Int)) (used : List Bool) :
    List Int × List Int × List (Option Int) :=
  (List.range (n + 1)).foldl
    (fun (acc : List Int × List Int × List (Option Int)) j =>
      if used.getD j false then
        let r := p.getD j 0
        (acc.1.set r (acc.1.getD r 0 + delta),
         acc.2.1.set j (acc.2.1.getD j 0 - delta), acc.2.2)
      else
        (acc.1, acc.2.1, acc.2.2.set j ((acc.2.2.getD j none).map (· - delta))))
    (u, v, minv)

/-- The inner do-while loop (`do { ... } while (p[j0] !== 0)`). -/
def hungarianInner (mat : List (List Int)) (p : List Nat) (n : Nat) :
    Nat → List Int → List Int → List (Option Int) → List Nat → List Bool →
    Nat → List Int × List Int × List Nat × Nat
  | 0, u, v, _, way, _, j0 => (u, v, way, j0)
  | fuel + 1, u, v, minv, way, used, j0 =>
    let used' := used.set j0 true
    let i0 := p.getD j0 0
    let (minv', way') := hungarianScan mat u v i0 j0 n minv way used'
    match hungarianDelta minv' used' n with
    | (none, _) => (u, v, way', j0)
    | (some delta, j1) =>
      let (u', v', minv'') := hungarianApply delta p n u v minv' used'
      if p.getD j1 0 ≠ 0 then
        hungarianInner mat p n fuel u' v' minv'' way' used' j1
      else (u', v', way', j1)

/-- The augmenting do-while loop (`do { ... } while (j0 !== 0)`). -/
def hungarianAugment : Nat → List Nat → List Nat → Nat → List Nat
  | 0, p, _, _ => p
  | fuel + 1, p, way, j0 =>
    let j1 := way.getD j0 0
    let p' := p.set j0 (p.getD j1 0)
    if j1 = 0 then p' else hungarianAugment fuel p' way j1

/-- Outer loop over the rows 1..n. -/
def hungarianRows (mat : List (List Int)) (n : Nat) :
    List Nat → List Int → List Int → List Nat → List Nat → List Int × List Int × List Nat
  | [], u, v, p, _ => (u, v, p)
  | i :: is, u, v, p, way =>
    let p0 := p.set 0 i
    let minv : List (Option Int) := List.replicate (n + 1) none
    let used : List Bool := List.replicate (n + 1) false
    let (u', v', way', j0) := hungarianInner mat p0 n (n + 1) u v minv way used 0
    let p' := hungarianAugment (n + 1) p0 way' j0
    hungarianRows mat n is u' v' p' way'

/-- Return assignment: `array[row] = col | null` (xmldiff.ts line 202). -/
def hungarian (cost : List (List Nat)) : List (Option Nat) :=
  let n := cost.length
  if n = 0 then []
  else
    let mat : List (List Int) := cost.map (fun row => row.map Int.ofNat)
    let u : List Int := List.replicate (n + 1) 0
    let v : List Int := List.replicate (n + 1) 0
    let p : List Nat := List.replicate (n + 1) 0
    let way : List Nat := List.replicate (n + 1) 0
    let (_, _, pFinal) :=
      hungarianRows mat n ((List.range n).map (· + 1)) u v p way
    (List.range n).foldl
      (fun ans j0 =>
        let j := j0 + 1
        let pj := pFinal.getD j 0
        if 0 < pj ∧ pj ≤ n then ans.set (pj - 1) (some (j - 1)) else ans)
      (List.replicate n none)

/-! ## Cost model (xmldiff.ts lines 128-196)

`subtreeCost` is total; `computeCost` can fail.  `DiffErr.typeError` models
the JavaScript `TypeError` thrown by `subtreeCost(bList[j])` when
`j >= bList.length` (xmldiff.ts line 183 reads `.id` of `undefined`);
`DiffErr.outOfFuel` is the artificial fuel-exhaustion case, unreachable for
the fuel chosen by the entry point. -/

inductive DiffErr where
  | typeError
  | outOfFuel
deriving DecidableEq, Repr

mutual

def subtreeCost : UNode → Memo → Nat × Memo
  | .mk i _ as tx cs, st =>
    match st.findSub i with
    | some c => (c, st)
    | none =>
      let r := subtreeCostList cs st
      let cost := 1 + as.length + (if tx.length > 0 then 1 else 0) + r.1
      (cost, r.2.insertSub i cost)

/-- The `for (const c of n.children) cost += subtreeCost(c)` loop. -/
def subtreeCostList : List UNode → Memo → Nat × Memo
  | [], st => (0, st)
  | c :: rest, st =>
    let (v, st1) := subtreeCost c st
    let (vs, st2) := subtreeCostList rest st1
    (v + vs, st2)

end

/-- Key iteration order of `new Set([...Object.keys(a), ...Object.keys(b)])`:
a's keys in insertion order, then b's keys not already seen. -/
def keyUnion (a b : List (String × String)) : List String :=
  ((a.map (·.1)) ++ (b.map (·.1))).eraseDups

def lookupAttr (a : List (String × String)) (k : String) : Option String :=
  (a.find? (fun e => e.1 = k)).map (·.2)

/-- Attribute component of `computeCost` (xmldiff.ts lines 151-155). -/
def attrCostOf (a b : List (String × String)) : Nat :=
  (keyUnion a b).foldl
    (fun c k =>
      match lookupAttr a k, lookupAttr b k with
      | some x, some y => if x ≠ y then c + 1 else c
      | _, _ => c + 1)
    0

/-- Group-key iteration order of `new Set([...ag.keys(), ...bg.keys()])`:
first occurrence order of child names on the a side, then new names on the
b side (JS Map keys iterate in insertion order). -/
def groupNames (a b : List UNode) : List String :=
  ((a.map (·.name)) ++ (b.map (·.name))).eraseDups

def groupGet (l : List UNode) (nm : String) : List UNode :=
  l.filter (fun c => c.name = nm)

/-- Sum of the matrix entries selected by the assignment (the
`for (let r ...) if (c != null) cost += mat[r][c]` loop). -/
def assignCost (mat : List (List Nat)) (assign : List (Option Nat)) : Nat :=
  assign.enum.foldl
    (fun c e =>
      match e.2 with
      | some j => c + (mat.getD e.1 []).getD j 0
      | none => c)
    0

/-- One row of the `computeCost` matrix (inner loop of xmldiff.ts lines
180-184), abstracted over the recursive `computeCost` call `cc`.
The final `else` branch is the unguarded `subtreeCost(bList[j])`: when `j`
is out of range this is the `TypeError` of reading `undefined.id`. -/
def ccMatRow (cc : UNode → UNode → Memo → Except DiffErr (Nat × Memo))
    (aL bL : List UNode) (i : Nat) :
    List Nat → Memo → Except DiffErr (List Nat × Memo)
  | [], st => .ok ([], st)
  | j :: js, st =>
    let entry : Except DiffErr (Nat × Memo) :=
      if h : i < aL.length ∧ j < bL.length then
        cc (aL.get ⟨i, h.1⟩) (bL.get ⟨j, h.2⟩) st
      else if h2 : i < aL.length then .ok (subtreeCost (aL.get ⟨i, h2⟩) st)
      else
        match bL[j]? with
        | some nd => .ok (subtreeCost nd st)
        | none => .error .typeError
    match entry with
    | .error e => .error e
    | .ok (c, st1) =>
      match ccMatRow cc aL bL i js st1 with
      | .error e => .error e
      | .ok (cs, st2) => .ok (c :: cs, st2)

/-- Rows i of the `computeCost` matrix (outer loop of lines 179-185). -/
def ccMatRows (cc : UNode → UNode → Memo → Except DiffErr (Nat × Memo))
    (aL bL : List UNode) (N : Nat) :
    List Nat → Memo → Except DiffErr (List (List Nat) × Memo)
  | [], st => .ok ([], st)
  | i :: is, st =>
    match ccMatRow cc aL bL i (List.range N) st with
    | .error e => .error e
    | .ok (row, st1) =>
      match ccMatRows cc aL bL N is st1 with
      | .error e => .error e
      | .ok (rows, st2) => .ok (row :: rows, st2)

/-- The per-name group loop of `computeCost` (lines 172-192). -/
def ccGroups (cc : UNode → UNode → Memo → Except DiffErr (Nat × Memo))
    (ac bc : List UNode) :
    List String → Memo → Except DiffErr (Nat × Memo)
  | [], st => .ok (0, st)
  | nm :: rest, st =>
    let aL := groupGet ac nm
    let bL := groupGet bc nm
    let N := aL.length + bL.length
    if N = 0 then ccGroups cc ac bc rest st
    else
      match ccMatRows cc aL bL N (List.range N) st with
      | .error e => .error e
      | .ok (mat, st1) =>
        let add := assignCost mat (hungarian mat)
        match ccGroups cc ac bc rest st1 with
        | .error e => .error e
        | .ok (cr, st2) => .ok (add + cr, st2)

/-- `computeCost` (xmldiff.ts lines 139-196), with the pair memo keyed by
the two ids and the matrix built row-major exactly as the nested loops do.
The fuel decreases once per recursion level; the entry point passes more
fuel than any tree is deep, so the out-of-fuel case is unreachable there. -/
def computeCost : Nat → UNode → UNode → Memo → Except DiffErr (Nat × Memo)
  | 0, _, _, _ => .error .outOfFuel
  | fuel + 1, a, b, st =>
    match st.findPair (a.id, b.id) with
    | some c => .ok (c, st)
    | none =>
      if a.name ≠ b.name then .ok (INF, st.insertPair (a.id, b.id) INF)
      else
        let c0 := attrCostOf a.attrs b.attrs
        let c1 :=
          if a.text ≠ b.text ∧ (a.text.length > 0 ∨ b.text.length > 0) then 1
          else 0
        match ccGroups (fun x y stx => computeCost fuel x y stx)
            a.children b.children (groupNames a.children b.children) st with
        | .error e => .error e
        | .ok (cg, st1) =>
          let total := c0 + c1 + cg
          .ok (total, st1.insertPair (a.id, b.id) total)

/-! ## Token emission (xmldiff.ts lines 119-121 and 259-321) -/

/-- `buildXPath` (xmldiff.ts line 121): note that no positional `[k]`
predicate is ever appended — the source comment reads "Build XPath without
positional indices (unordered semantics)". -/
def buildXPath (parent seg : String) : String :=
  if parent = "" then "/" ++ seg else parent ++ "/" ++ seg

/-- Tokens emitted for one attribute key (xmldiff.ts lines 261-286). -/
def emitAttrKey (a b : List (String × String)) (path k : String) :
    List XMLDiffToken :=
  match lookupAttr a k, lookupAttr b k with
  | none, bv =>
    [{ editType := .INSERT, nodeType := .ATTRIBUTE,
       xpath := path ++ "/@" ++ k, name := some k, newValue := bv }]
  | some x, none =>
    [{ editType := .DELETE, nodeType := .ATTRIBUTE,
       xpath := path ++ "/@" ++ k, name := some k, oldValue := some x }]
  | some x, some y =>
    if x ≠ y then
      [{ editType := .CHANGE, nodeType := .ATTRIBUTE,
         xpath := path ++ "/@" ++ k, name := some k,
         oldValue := some x, newValue := some y }]
    else []

/-- The key loop of `emitAttrDiffs`. -/
def emitAttrDiffsGo (a b : List (String × String)) (path : String) :
    List String → List XMLDiffToken
  | [] => []
  | k :: ks => emitAttrKey a b path k ++ emitAttrDiffsGo a b path ks

/-- `emitAttrDiffs` (xmldiff.ts lines 259-288). -/
def emitAttrDiffs (a b : List (String × String)) (path : String) :
    List XMLDiffToken :=
  emitAttrDiffsGo a b path (keyUnion a b)

/-- `emitContentDiff` (xmldiff.ts lines 290-321). -/
def emitContentDiff (aText bText path : String) : List XMLDiffToken :=
  if aText.length = 0 ∧ bText.length = 0 then []
  else if aText.length > 0 ∧ bText.length = 0 then
    [{ editType := .DELETE, nodeType := .CONTENT, xpath := path ++ "/text()",
       oldValue := some aText }]
  else if aText.length = 0 ∧ bText.length > 0 then
    [{ editType := .INSERT, nodeType := .CONTENT, xpath := path ++ "/text()",
       newValue := some bText }]
  else if aText ≠ bText then
    [{ editType := .CHANGE, nodeType := .CONTENT, xpath := path ++ "/text()",
       oldValue := some aText, newValue := some bText }]
  else []

def insertElemToken (xp nm : String) : XMLDiffToken :=
  { editType := .INSERT, nodeType := .ELEMENT, xpath := xp, name := some nm }

def deleteElemToken (xp nm : String) : XMLDiffToken :=
  { editType := .DELETE, nodeType := .ELEMENT, xpath := xp, name := some nm }

/-! ## Diffing (xmldiff.ts lines 327-423)

The matrix built by `diffNodes` (lines 374-381) guards its padding entries
with `aList[i] ? ... : 0` and `bList[j] ? ... : 0`, so — unlike the one in
`computeCost` — it cannot crash on an out-of-range index. -/

/-- One row of the `diffNodes` matrix (lines 375-381). -/
def dnMatRow (fuel : Nat) (aL bL : List UNode) (i : Nat) :
    List Nat → Memo → Except DiffErr (List Nat × Memo)
  | [], st => .ok ([], st)
  | j :: js, st =>
    let entry : Except DiffErr (Nat × Memo) :=
      if h : i < aL.length ∧ j < bL.length then
        computeCost fuel (aL.get ⟨i, h.1⟩) (bL.get ⟨j, h.2⟩) st
      else if h2 : i < aL.length then .ok (subtreeCost (aL.get ⟨i, h2⟩) st)
      else
        match bL[j]? with
        | some nd => .ok (subtreeCost nd st)
        | none => .ok (0, st)
    match entry with
    | .error e => .error e
    | .ok (c, st1) =>
      match dnMatRow fuel aL bL i js st1 with
      | .error e => .error e
      | .ok (cs, st2) => .ok (c :: cs, st2)

/-- Rows of the `diffNodes` matrix. -/
def dnMatRows (fuel : Nat) (aL bL : List UNode) (N : Nat) :
    List Nat → Memo → Except DiffErr (List (List Nat) × Memo)
  | [], st => .ok ([], st)
  | i :: is, st =>
    match dnMatRow fuel aL bL i (List.range N) st with
    | .error e => .error e
    | .ok (row, st1) =>
      match dnMatRows fuel aL bL N is st1 with
      | .error e => .error e
      | .ok (rows, st2) => .ok (row :: rows, st2)

/-- The assignment-consuming loop of `diffNodes` (lines 383-421),
abstracted over the recursive `diffNodes` call `dn`. -/
def dnAssign (fuel : Nat)
    (dn : UNode → UNode → String → Memo → Except DiffErr (List XMLDiffToken × Memo))
    (aL bL : List UNode) (nm xp : String) (mat : List (List Nat)) :
    List (Nat × Option Nat) → Memo → Except DiffErr (List XMLDiffToken × Memo)
  | [], st => .ok ([], st)
  | (i, oj) :: rest, st =>
    match oj with
    | none => dnAssign fuel dn aL bL nm xp mat rest st
    | some j =>
      if h : i < aL.length ∧ j < bL.length then
        let ca := aL.get ⟨i, h.1⟩
        let cb := bL.get ⟨j, h.2⟩
        let pairCost := (mat.getD i []).getD j 0
        let rA := subtreeCost ca st
        let rB := subtreeCost cb rA.2
        let stB := rB.2
        if pairCost < rA.1 + rB.1 then
          match dn ca cb (buildXPath xp nm) stB with
          | .error e => .error e
          | .ok (tm, st1) =>
            match dnAssign fuel dn aL bL nm xp mat rest st1 with
            | .error e => .error e
            | .ok (tr, st2) => .ok (tm ++ tr, st2)
        else
          match dnAssign fuel dn aL bL nm xp mat rest stB with
          | .error e => .error e
          | .ok (tr, st1) =>
            .ok (deleteElemToken (buildXPath xp nm) nm ::
                 insertElemToken (buildXPath xp nm) nm :: tr, st1)
      else if i < aL.length then
        match dnAssign fuel dn aL bL nm xp mat rest st with
        | .error e => .error e
        | .ok (tr, st1) => .ok (deleteElemToken (buildXPath xp nm) nm :: tr, st1)
      else if j < bL.length then
        match dnAssign fuel dn aL bL nm xp mat rest st with
        | .error e => .error e
        | .ok (tr, st1) => .ok (insertElemToken (buildXPath xp nm) nm :: tr, st1)
      else dnAssign fuel dn aL bL nm xp mat rest st

/-- The per-name group loop of `diffNodes` (lines 342-422). -/
def dnGroups (fuel : Nat)
    (dn : UNode → UNode → String → Memo → Except DiffErr (List XMLDiffToken × Memo))
    (ac bc : List UNode) (xp : String) :
    List String → Memo → Except DiffErr (List XMLDiffToken × Memo)
  | [], st => .ok ([], st)
  | nm :: rest, st =>
    let aL := groupGet ac nm
    let bL := groupGet bc nm
    if aL.length = 0 ∧ bL.length > 0 then
      let toks := bL.map (fun _ => insertElemToken (buildXPath xp nm) nm)
      match dnGroups fuel dn ac bc xp rest st with
      | .error e => .error e
      | .ok (tr, st1) => .ok (toks ++ tr, st1)
    else if bL.length = 0 ∧ aL.length > 0 then
      let toks := aL.map (fun _ => deleteElemToken (buildXPath xp nm) nm)
      match dnGroups fuel dn ac bc xp rest st with
      | .error e => .error e
      | .ok (tr, st1) => .ok (toks ++ tr, st1)
    else
      let N := aL.length + bL.length
      match dnMatRows fuel aL bL N (List.range N) st with
      | .error e => .error e
      | .ok (mat, st1) =>
        match dnAssign fuel dn aL bL nm xp mat (hungarian mat).enum st1 with
        | .error e => .error e
        | .ok (tm, st2) =>
          match dnGroups fuel dn ac bc xp rest st2 with
          | .error e => .error e
          | .ok (tr, st3) => .ok (tm ++ tr, st3)

/-- `diffNodes` (xmldiff.ts lines 327-423). -/
def diffNodes : Nat → UNode → UNode → String → Memo →
    Except DiffErr (List XMLDiffToken × Memo)
  | 0, _, _, _, _ => .error .outOfFuel
  | fuel + 1, a, b, xp, st =>
    let t0 := emitAttrDiffs a.attrs b.attrs xp
    let t1 := emitContentDiff a.text b.text xp
    match dnGroups fuel (fun x y xpx stx => diffNodes fuel x y xpx stx)
        a.children b.children xp (groupNames a.children b.children) st with
    | .error e => .error e
    | .ok (t2, st1) => .ok (t0 ++ t1 ++ t2, st1)

/-! ## Public entry point (xmldiff.ts lines 426-452) -/

/-- Fuel bound: the recursion depth of `diffNodes`/`computeCost` is bounded
by the tree depth, which is at most the node count. -/
def computeFuel (ta tb : RawNode) : Nat := ta.size + tb.size + 1

/-- `computeXMLDiffTokens` (xmldiff.ts lines 426-452).  Both memo tables are
cleared on entry (lines 427-428) and each parse resets the id counter, so
the computation starts from `Memo.empty`. -/
def computeXMLDiffTokens (ta tb : RawNode) : Except DiffErr (List XMLDiffToken) :=
  let a := parseTree ta
  let b := parseTree tb
  if a.name ≠ b.name then
    .ok [deleteElemToken ("/" ++ a.name) a.name,
         insertElemToken ("/" ++ b.name) b.name]
  else
    match diffNodes (computeFuel ta tb) a b ("/" ++ a.name) Memo.empty with
    | .error e => .error e
    | .ok (toks, _) => .ok toks

/-- The module-level mutable state of xmldiff.ts: the `nextId` counter
(line 55) and the two memoization maps (lines 125-126). -/
structure ModuleState where
  nextId : Nat
  subMemo : List (Nat × Nat)
  pairMemo : List ((Nat × Nat) × Nat)

/-- `computeXMLDiffTokens` with the module state made explicit.  The body
mirrors the source: `subtreeCostMemo.clear(); pairCostMemo.clear()` discards
the incoming memo state, and `parseXMLToUNode` sets `nextId = 1` before
each parse, so no component of the incoming state is read. -/
def computeXMLDiffTokensSt (ms : ModuleState) (ta tb : RawNode) :
    Except DiffErr (List XMLDiffToken) × ModuleState :=
  let cleared : Memo := Memo.empty
  let (a, _) := assignIds ta 1
  let (b, nB) := assignIds tb 1
  if a.name ≠ b.name then
    (.ok [deleteElemToken ("/" ++ a.name) a.name,
          insertElemToken ("/" ++ b.name) b.name],
     ⟨nB, cleared.sub, cleared.pair⟩)
  else
    match diffNodes (computeFuel ta tb) a b ("/" ++ a.name) cleared with
    | .error e => (.error e, ⟨nB, cleared.sub, cleared.pair⟩)
    | .ok (toks, stF) => (.ok toks, ⟨nB, stF.sub, stF.pair⟩)

/-- The parse failure of the external fast-xml-parser, surfaced by
`parseXMLToUNode` (xmldiff.ts lines 112-117), which installs no handler.
Modelled from the spec: the parser is an external dependency whose contract
(spec section 4.1) is to fail on input that cannot be parsed; a parse
function therefore returns `none` exactly on malformed input. -/
inductive XmlDiffFailure where
  | malformedXml
  | diffError (e : DiffErr)
deriving DecidableEq, Repr

/-- `computeXMLDiffTokens` on raw strings, abstracting the external parser
as a function argument: `parse s = none` models a parser exception, which
propagates out of `computeXMLDiffTokens` unhandled. -/
def computeXMLDiffTokensStr (parse : String → Option RawNode) (aXML bXML : String) :
    Except XmlDiffFailure (List XMLDiffToken) :=
  match parse aXML with
  | none => .error .malformedXml
  | some ta =>
    match parse bXML with
    | none => .error .malformedXml
    | some tb =>
      match computeXMLDiffTokens ta tb with
      | .error e => .error (.diffError e)
      | .ok toks => .ok toks

/-! ## MusicXML overlay projector (musicxmldiff.ts)

The DOM is modelled as a tree of element and text nodes; a node of the
document is addressed by the list of child indices from the root element.
The external `xpath.select` evaluator is modelled from the spec (section 6):
absolute `/tag` segments with optional 1-based `[k]` predicates, terminating
optionally in `/@attr` or `/text()`; resolution is total and returns the
first matching element or none. -/

inductive XNode where
  | elem (name : String) (attrs : List (String × String)) (children : List XNode)
  | text (s : String)
deriving Repr

def XNode.tag? : XNode → Option String
  | .elem nm _ _ => some nm
  | .text _ => none

def XNode.childNodes : XNode → List XNode
  | .elem _ _ cs => cs
  | .text _ => []

/-- musicxmldiff.ts lines 17-30. -/
def COLORABLE_ELEMENTS : List String :=
  ["note", "direction", "harmony", "backup", "forward", "attributes",
   "clef", "key", "time", "part", "measure", "rest"]

def colorable (nm : String) : Bool := COLORABLE_ELEMENTS.contains nm

def COLOR_INSERT : String := "#00FF00"
def COLOR_DELETE : String := "#FF0000"
def COLOR_CHANGE : String := "#FFFF00"

/-- Node at a child-index path, if any. -/
def getAt : XNode → List Nat → Option XNode
  | n, [] => some n
  | n, i :: p =>
    match n.childNodes[i]? with
    | some c => getAt c p
    | none => none

/-- `el.setAttribute(k, v)` semantics on an attribute list: replace the
value in place if the name exists, otherwise append. -/
def setAttrList : List (String × String) → String → String → List (String × String)
  | [], k, v => [(k, v)]
  | (k0, v0) :: rest, k, v =>
    if k0 = k then (k0, v) :: rest else (k0, v0) :: setAttrList rest k v

/-- `setColor` (musicxmldiff.ts lines 32-35) applied at a path: set the
`color` attribute of the addressed element.  An invalid path (never
produced by resolution) leaves the document unchanged. -/
def setColorAt : XNode → List Nat → String → XNode
  | .elem nm as cs, [], c => .elem nm (setAttrList as "color" c) cs
  | .text s, [], _ => .text s
  | .elem nm as cs, i :: p, c =>
    match cs[i]? with
    | some ch => .elem nm as (cs.set i (setColorAt ch p c))
    | none => .elem nm as cs
  | .text s, _ :: _, _ => .text s

/-- Split a character list at every occurrence of `sep` (the semantics of
`String.splitOn` for a one-character separator, reimplemented structurally). -/
def splitChar (sep : Char) : List Char → List (List Char)
  | [] => [[]]
  | c :: rest =>
    match splitChar sep rest with
    | [] => [[c]]
    | g :: gs => if c = sep then [] :: g :: gs else (c :: g) :: gs

/-- Does `sub` occur as a contiguous sublist? -/
def containsSub (sub : List Char) : List Char → Bool
  | [] => sub.isPrefixOf []
  | c :: rest => sub.isPrefixOf (c :: rest) || containsSub sub rest

/-- Prefix before the first occurrence of `sub`. -/
def takeUntilSub (sub : List Char) : List Char → List Char
  | [] => []
  | c :: rest => if sub.isPrefixOf (c :: rest) then [] else c :: takeUntilSub sub rest

/-- Decimal digits to a number (the semantics of `String.toNat?`). -/
def charsToNatGo : List Char → Nat → Option Nat
  | [], acc => some acc
  | c :: cs, acc =>
    if c.isDigit then charsToNatGo cs (acc * 10 + (c.toNat - 48)) else none

def charsToNat? (l : List Char) : Option Nat :=
  if l.isEmpty then none else charsToNatGo l 0

/-- One XPath segment `tag` or `tag[k]`. -/
def parseSeg (s : List Char) : Option (String × Nat) :=
  match splitChar '[' s with
  | [nm] => if nm.isEmpty then none else some (String.mk nm, 1)
  | [nm, kpart] =>
    if nm.isEmpty then none
    else if kpart.getLast? = some ']' then
      match charsToNat? kpart.dropLast with
      | some k => some (String.mk nm, k)
      | none => none
    else none
  | _ => none

/-- Split an absolute XPath `/a/b[2]/c` into segments. -/
def parseXPathSegs (s : String) : Option (List (String × Nat)) :=
  match splitChar '/' s.data with
  | [] :: rest => if rest.isEmpty then none else rest.mapM parseSeg
  | _ => none

/-- Index (into the full child list) of the k-th element child named `nm`,
1-based. -/
def elemChildIdx : List XNode → String → Nat → Nat → Option Nat
  | [], _, _, _ => none
  | c :: rest, nm, k, idx =>
    match c with
    | .elem n _ _ =>
      if n = nm then
        if k = 1 then some idx else elemChildIdx rest nm (k - 1) (idx + 1)
      else elemChildIdx rest nm k (idx + 1)
    | .text _ => elemChildIdx rest nm k (idx + 1)

/-- Resolution of the segments below a given element. -/
def resolveBelow : XNode → List (String × Nat) → List Nat → Option (List Nat)
  | _, [], acc => some acc
  | cur, (nm, k) :: rest, acc =>
    if k = 0 then none
    else
      match elemChildIdx cur.childNodes nm k 0 with
      | some i =>
        match cur.childNodes[i]? with
        | some ch => resolveBelow ch rest (acc ++ [i])
        | none => none
      | none => none

/-- Resolution of an absolute segment list against the document: the first
segment must match the root element (position 1). -/
def resolveFromDoc (root : XNode) (segs : List (String × Nat)) : Option (List Nat) :=
  match segs with
  | [] => none
  | (nm, k) :: rest =>
    if root.tag? = some nm ∧ k = 1 then resolveBelow root rest [] else none

/-- The path-cleaning regex of `findElementFromXPath` (musicxmldiff.ts line
49): drop everything from the first `/@`, or else a trailing `/text()`. -/
def cleanXPath (s : String) : String :=
  let l := s.data
  if containsSub ['/', '@'] l then String.mk (takeUntilSub ['/', '@'] l)
  else if ['/', 't', 'e', 'x', 't', '(', ')'].isSuffixOf l then
    String.mk (l.take (l.length - 7))
  else s

/-- `findElementFromXPath` (musicxmldiff.ts lines 48-52), returning the
path of the first matching element. -/
def findElementFromXPath (doc : XNode) (xpathStr : String) : Option (List Nat) :=
  match parseXPathSegs (cleanXPath xpathStr) with
  | some segs => resolveFromDoc doc segs
  | none => none

/-- Does the path point at an element whose tag is colorable? -/
def colorableAt (doc : XNode) (p : List Nat) : Bool :=
  match getAt doc p with
  | some (.elem nm _ _) => colorable nm
  | _ => false

/-- The ancestor walk of `findColorableParent`, fuelled by the path length
(each step drops the last index, so `p.length + 1` steps always suffice). -/
def findColorableParentGo (doc : XNode) : Nat → List Nat → Option (List Nat)
  | 0, _ => none
  | fuel + 1, p =>
    match getAt doc p with
    | some (.elem nm _ _) =>
      if colorable nm then some p
      else if p.isEmpty then none
      else findColorableParentGo doc fuel p.dropLast
    | _ => none

/-- `findColorableParent` (musicxmldiff.ts lines 38-45): walk from the
element at `p` up through its ancestors (including the root element; the
document node above it has nodeName `#document`, never colorable). -/
def findColorableParent (doc : XNode) (p : List Nat) : Option (List Nat) :=
  findColorableParentGo doc (p.length + 1) p

/-- Loop body of `processMusicXMLDiff` (musicxmldiff.ts lines 67-101). -/
def processToken (o n : XNode) (us : List XMLDiffToken) (tok : XMLDiffToken) :
    XNode × XNode × List XMLDiffToken :=
  let oldEl := findElementFromXPath o tok.xpath
  let newEl := findElementFromXPath n tok.xpath
  if tok.nodeType = .ELEMENT ∧ tok.editType = .INSERT then
    match newEl with
    | some p =>
      if colorableAt n p then (o, setColorAt n p COLOR_INSERT, us)
      else (o, n, us ++ [tok])
    | none => (o, n, us ++ [tok])
  else if tok.nodeType = .ELEMENT ∧ tok.editType = .DELETE then
    match oldEl with
    | some p =>
      if colorableAt o p then (setColorAt o p COLOR_DELETE, n, us)
      else (o, n, us ++ [tok])
    | none => (o, n, us ++ [tok])
  else
    let oldP := oldEl.bind (findColorableParent o)
    let newP := newEl.bind (findColorableParent n)
    let o' := match oldP with | some p => setColorAt o p COLOR_CHANGE | none => o
    let n' := match newP with | some p => setColorAt n p COLOR_CHANGE | none => n
    if oldP.isNone ∧ newP.isNone then (o', n', us ++ [tok]) else (o', n', us)

def processLoop : XNode → XNode → List XMLDiffToken → List XMLDiffToken →
    XNode × XNode × List XMLDiffToken
  | o, n, [], us => (o, n, us)
  | o, n, t :: ts, us =>
    let r := processToken o n us t
    processLoop r.1 r.2.1 ts r.2.2

/-- `processMusicXMLDiff` (musicxmldiff.ts lines 54-108) on parsed DOMs;
serialization of the two returned documents is external byte formatting and
out of scope (spec section 1). -/
def processMusicXMLDiff (oldDoc newDoc : XNode) (tokens : List XMLDiffToken) :
    XNode × XNode × List XMLDiffToken :=
  processLoop oldDoc newDoc tokens []

/-- Whether a token, decided against the given (unmutated) documents, colors
nothing — the condition under which the loop adds it to `unusedTokens`. -/
def colorsNothing (o n : XNode) (tok : XMLDiffToken) : Bool :=
  if tok.nodeType = .ELEMENT ∧ tok.editType = .INSERT then
    match findElementFromXPath n tok.xpath with
    | some p => !colorableAt n p
    | none => true
  else if tok.nodeType = .ELEMENT ∧ tok.editType = .DELETE then
    match findElementFromXPath o tok.xpath with
    | some p => !colorableAt o p
    | none => true
  else
    ((findElementFromXPath o tok.xpath).bind (findColorableParent o)).isNone &&
    ((findElementFromXPath n tok.xpath).bind (findColorableParent n)).isNone

/-! ## Frame relation for the overlay projector

`diffOnlyColor a b` holds when `b` has exactly the structure, text and
attributes of `a` except that elements with a colorable tag may have had a
`color` attribute added or replaced. -/

def eraseColor (as : List (String × String)) : List (String × String) :=
  as.filter (fun e => e.1 ≠ "color")

mutual

def diffOnlyColor : XNode → XNode → Bool
  | .text s, .text t => s == t
  | .elem nm as cs, .elem nm' as' cs' =>
    nm == nm' && diffOnlyColorList cs cs' &&
    (if colorable nm then eraseColor as == eraseColor as' else as == as')
  | _, _ => false

def diffOnlyColorList : List XNode → List XNode → Bool
  | [], [] => true
  | c :: cs, c' :: cs' => diffOnlyColor c c' && diffOnlyColorList cs cs'
  | _, _ => false

end

/-! ## Spec-modelled cost model for comparison (spec section 4.2) -/

mutual

/-- Modelled from the spec: `subtreeCost(n) = 1 + |n.attrs| + (n.text ≠ ""
? 1 : 0) + Σ subtreeCost(c)` (spec section 4.2). -/
def specSubtreeCost : RawNode → Nat
  | .mk _ as tx cs =>
    1 + as.length + (if tx.length > 0 then 1 else 0) + specSubtreeCostList cs

def specSubtreeCostList : List RawNode → Nat
  | [] => 0
  | c :: cs => specSubtreeCost c + specSubtreeCostList cs

end

/-- Modelled from the spec: the order-preserving edit-distance DP of spec
section 4.2, abstracted over the match cost `scc` — delete costs
`subtreeCost`, insert costs `subtreeCost`, match costs `computeCost` of the
pair.  The fuel decreases at every step; any fuel above the combined list
length is enough. -/
def specAlignCost (scc : RawNode → RawNode → Nat) :
    Nat → List RawNode → List RawNode → Nat
  | 0, _, _ => 0
  | _ + 1, [], [] => 0
  | fuel + 1, a :: as, [] => specSubtreeCost a + specAlignCost scc fuel as []
  | fuel + 1, [], b :: bs => specSubtreeCost b + specAlignCost scc fuel [] bs
  | fuel + 1, a :: as, b :: bs =>
    min
      (min (specSubtreeCost a + specAlignCost scc fuel as (b :: bs))
           (specSubtreeCost b + specAlignCost scc fuel (a :: as) bs))
      (scc a b + specAlignCost scc fuel as bs)

/-- Modelled from the spec: `computeCost(a, b)` of spec section 4.2, whose
children-alignment component is the standard order-preserving edit-distance
DP on `a.children` vs `b.children`. -/
def specComputeCost : Nat → RawNode → RawNode → Nat
  | 0, _, _ => 0
  | fuel + 1, a, b =>
    if a.name ≠ b.name then INF
    else
      attrCostOf a.attrs b.attrs +
      (if a.text ≠ b.text ∧ (a.text.length > 0 ∨ b.text.length > 0) then 1
       else 0) +
      specAlignCost (fun x y => specComputeCost fuel x y) fuel
        a.children b.children

/-! ## Concrete documents used by the claim theorems -/

def noteText (s : String) : RawNode := .mk "note" [] s []

/-- `<root><note>A</note><note>B</note></root>` — the document of the repo
test suite's "indexed children" scenario. -/
def docNotesAB : RawNode := .mk "root" [] "" [noteText "A", noteText "B"]

/-- `<root><note>A</note><note>C</note></root>`. -/
def docNotesAC : RawNode := .mk "root" [] "" [noteText "A", noteText "C"]

def xLeaf (s : String) : RawNode := .mk "x" [] s []

/-- `<r><x>1</x><x>2</x></r>`. -/
def docSwap1 : RawNode := .mk "r" [] "" [xLeaf "1", xLeaf "2"]

/-- `<r><x>2</x><x>1</x></r>` — the same two children in swapped order. -/
def docSwap2 : RawNode := .mk "r" [] "" [xLeaf "2", xLeaf "1"]

/-- `<top><r><x>1</x><x>2</x></r></top>`. -/
def docSwapDeep1 : RawNode := .mk "top" [] "" [docSwap1]

/-- `<top><r><x>2</x><x>1</x></r></top>`. -/
def docSwapDeep2 : RawNode := .mk "top" [] "" [docSwap2]

/-- `<r><a><b/><c/></a></r>` — its `<a>` subtree gets id 2 and subtree cost
3. -/
def docMemoOld : RawNode := .mk "r" [] "" [.mk "a" [] "" [.mk "b" [] "" [], .mk "c" [] "" []]]

/-- `<r><a/></r>` — its `<a>` subtree also gets id 2 but has subtree cost
1. -/
def docMemoNew : RawNode := .mk "r" [] "" [.mk "a" [] "" []]

/-- The `<a>` subtree of `parseTree docMemoOld`, ids included. -/
def aOldU : UNode := .mk 2 "a" [] "" [.mk 3 "b" [] "" [], .mk 4 "c" [] "" []]

/-- The `<a>` subtree of `parseTree docMemoNew`, ids included. -/
def aNewU : UNode := .mk 2 "a" [] "" []

/-- `<root><p><x/></p></root>` — a three-level document. -/
def docDeepSelf : RawNode := .mk "root" [] "" [.mk "p" [] "" [.mk "x" [] "" []]]

/-- `<pitch/>`: not a colorable tag. -/
def pitchEl : XNode := .elem "pitch" [] []

/-- `<note><pitch/></note>`: `note` is colorable. -/
def noteEl : XNode := .elem "note" [] [pitchEl]

/-- `<score><note><pitch/></note></score>`: `score` is not colorable. -/
def scoreDoc : XNode := .elem "score" [] [noteEl]

/-- An element INSERT token addressing the non-colorable `<pitch>` element,
whose parent `<note>` is colorable. -/
def insertPitchToken : XMLDiffToken :=
  { editType := .INSERT, nodeType := .ELEMENT, xpath := "/score/note/pitch",
    name := some "pitch" }

/-- An element INSERT token addressing the colorable `<note>` element. -/
def insertNoteToken : XMLDiffToken :=
  { editType := .INSERT, nodeType := .ELEMENT, xpath := "/score/note",
    name := some "note" }

/-- An element DELETE token addressing the colorable `<note>` element. -/
def deleteNoteToken : XMLDiffToken :=
  { editType := .DELETE, nodeType := .ELEMENT, xpath := "/score/note",
    name := some "note" }

/-- A parse stub for the external parser contract: accepts exactly
`<root/>`. -/
def parseStub : String → Option RawNode :=
  fun s => if s = "<root/>" then some (.mk "root" [] "" []) else none

/-- No-phantom-edit property of a token: a CHANGE token carries two present
and different values. -/
def tokNoPhantom (t : XMLDiffToken) : Prop :=
  t.editType = .CHANGE →
    ∃ o n, t.oldValue = some o ∧ t.newValue = some n ∧ o ≠ n

/-! ## Claim theorems -/

/-- C1.  Refuted: the spec claims every token addresses its element with a
positional XPath, `/tag[k]` whenever the element has more than one same-name
sibling.  On `<root><note>A</note><note>B</note></root>` versus
`<root><note>A</note><note>C</note></root>` — where both `note` elements
have two same-name siblings, as the last two conjuncts record — the only
emitted token carries the index-free XPath `/root/note/text()`, not the
`/root/note[2]/text()` the spec (and the repository's own test suite)
requires: `buildXPath` never appends a positional predicate. -/
theorem c1_positional_xpath_refuted :
    computeXMLDiffTokens docNotesAB docNotesAC =
      .ok [{ editType := .CHANGE, nodeType := .CONTENT,
             xpath := "/root/note/text()",
             oldValue := some "B", newValue := some "C" }] ∧
    (parseTree docNotesAB).children.map UNode.name = ["note", "note"] ∧
    (parseTree docNotesAC).children.map UNode.name = ["note", "note"] :=
  ⟨rfl, rfl, rfl⟩

/-- C2.  Refuted: the children-alignment component of `computeCost` is not
the order-preserving edit-distance DP of the spec.  On
`<r><x>1</x><x>2</x></r>` versus `<r><x>2</x><x>1</x></r>` the ordered DP
costs 2 (two content changes), but `computeCost` throws a `TypeError`
(reading `bList[j].id` out of range, xmldiff.ts line 183) because the two
nodes share the child name `x`; and the public entry point matches the two
`x` children crosswise by minimal assignment, emitting no token at all for
the swapped texts.  Wrapping the pair one level deeper makes the public
entry point itself crash. -/
theorem c2_ordered_dp_refuted :
    computeCost 10 (parseTree docSwap1) (parseTree docSwap2) Memo.empty =
      .error .typeError ∧
    specAlignCost (fun x y => specComputeCost 10 x y) 10
      docSwap1.children docSwap2.children = 2 ∧
    computeXMLDiffTokens docSwap1 docSwap2 = .ok [] ∧
    computeXMLDiffTokens docSwapDeep1 docSwapDeep2 = .error .typeError :=
  ⟨rfl, rfl, rfl, rfl⟩

/-- C3, counterexample.  The element INSERT token addressing the
non-colorable `<pitch>` inside `<score><note><pitch/></note></score>`
resolves (second conjunct), and the colorable-ancestor walk from the
resolved element finds the colorable `<note>` (third and fourth conjuncts);
yet `processMusicXMLDiff` leaves both documents unchanged and reports the
token unused (first conjunct), because for element tokens the code checks
only the resolved element itself and performs no ancestor walk. -/
theorem c3_counterexample :
    processMusicXMLDiff scoreDoc scoreDoc [insertPitchToken] =
      (scoreDoc, scoreDoc, [insertPitchToken]) ∧
    findElementFromXPath scoreDoc insertPitchToken.xpath = some [0, 0] ∧
    findColorableParent scoreDoc [0, 0] = some [0] ∧
    colorableAt scoreDoc [0] = true :=
  ⟨rfl, rfl, rfl, rfl⟩

/-- C3, amended.  For an element token, `processMusicXMLDiff` performs no
ancestor walk: an INSERT colors the resolved new-side element itself with
#00FF00 exactly when that element's own tag is colorable and otherwise
reports the token unused (even when a colorable proper ancestor exists), and
symmetrically a DELETE colors the resolved old-side element itself with
#FF0000 or reports the token unused. -/
theorem c3_amended (o n : XNode) (us : List XMLDiffToken) (tok : XMLDiffToken)
    (hn : tok.nodeType = .ELEMENT) :
    (tok.editType = .INSERT →
      processToken o n us tok =
        match findElementFromXPath n tok.xpath with
        | some p =>
          if colorableAt n p then (o, setColorAt n p COLOR_INSERT, us)
          else (o, n, us ++ [tok])
        | none => (o, n, us ++ [tok])) ∧
    (tok.editType = .DELETE →
      processToken o n us tok =
        match findElementFromXPath o tok.xpath with
        | some p =>
          if colorableAt o p then (setColorAt o p COLOR_DELETE, n, us)
          else (o, n, us ++ [tok])
        | none => (o, n, us ++ [tok])) := by
  constructor
  · intro he
    simp only [processToken, hn, he, and_self, if_pos]
  · intro he
    simp [processToken, hn, he]

/-- C3, witness for the amended theorem: an element INSERT token addressing
the colorable `<note>` colors that element green, and an element DELETE
token addressing it colors it red on the old side. -/
theorem c3_amended_witness :
    insertNoteToken.nodeType = .ELEMENT ∧
    processToken scoreDoc scoreDoc [] insertNoteToken =
      (scoreDoc, XNode.elem "score" []
        [XNode.elem "note" [("color", "#00FF00")] [pitchEl]], []) ∧
    processToken scoreDoc scoreDoc [] deleteNoteToken =
      (XNode.elem "score" []
        [XNode.elem "note" [("color", "#FF0000")] [pitchEl]], scoreDoc, []) :=
  ⟨rfl,
   ((c3_amended scoreDoc scoreDoc [] insertNoteToken rfl).1 rfl).trans rfl,
   ((c3_amended scoreDoc scoreDoc [] deleteNoteToken rfl).2 rfl).trans rfl⟩

/-- C4.  Refuted: the id spaces of the two parsed trees are never disjoint
(the first conjunct shows every parse starts numbering at 1), and the
subtree-cost memo is keyed by the id alone, so entries are shared between
the trees: on `<r><a><b/><c/></a></r>` versus `<r><a/></r>` both `<a>`
subtrees receive id 2 (second and third conjuncts), and after the old-side
`<a>` is costed at 3, the memoized `subtreeCost` returns 3 for the new-side
`<a>` whose true cost — as computed from an empty memo — is 1. -/
theorem c4_memo_sharing_refuted :
    (∀ t : RawNode, (parseTree t).id = 1) ∧
    (parseTree docMemoOld).children = [aOldU] ∧
    (parseTree docMemoNew).children = [aNewU] ∧
    (subtreeCost aOldU Memo.empty).1 = 3 ∧
    (subtreeCost aNewU (subtreeCost aOldU Memo.empty).2).1 = 3 ∧
    (subtreeCost aNewU Memo.empty).1 = 1 := by
  refine ⟨?_, rfl, rfl, rfl, rfl, rfl⟩
  intro t
  cases t with
  | mk nm as tx cs =>
    show ((assignIds (.mk nm as tx cs) 1).1).id = 1
    cases hE : assignIdsList cs 2 with
    | mk us next => simp [assignIds, hE, UNode.id]

/-- C5.  Refuted: `computeXMLDiffTokens(A, A)` is not `[]` for every
well-formed document: on the three-level `<root><p><x/></p></root>` the
self-diff throws a `TypeError` (the unguarded `subtreeCost(bList[j])` read
of xmldiff.ts line 183, reached because the matched `<p>` pair shares the
child name `x`).  The identity does hold on the two-level
`<root><note>A</note><note>B</note></root>`, which never reaches that read. -/
theorem c5_identity_refuted :
    computeXMLDiffTokens docDeepSelf docDeepSelf = .error .typeError ∧
    computeXMLDiffTokens docNotesAB docNotesAB = .ok [] :=
  ⟨rfl, rfl⟩

/-- C8.  Confirmed (with the external fast-xml-parser modelled by its
contract): when either input string fails to parse, `computeXMLDiffTokens`
fails with the MalformedXml error — `parseXMLToUNode` installs no handler,
so the failure surfaces to the caller and nothing is recovered. -/
theorem c8_malformed_fatal (parse : String → Option RawNode) (aXML bXML : String) :
    (parse aXML = none →
      computeXMLDiffTokensStr parse aXML bXML = .error .malformedXml) ∧
    (∀ ta, parse aXML = some ta → parse bXML = none →
      computeXMLDiffTokensStr parse aXML bXML = .error .malformedXml) := by
  constructor
  · intro h
    simp [computeXMLDiffTokensStr, h]
  · intro ta h1 h2
    simp [computeXMLDiffTokensStr, h1, h2]

/-- C8, witness: with a parser accepting exactly `<root/>`, a malformed
first or second input makes the computation fail with MalformedXml. -/
theorem c8_malformed_fatal_witness :
    parseStub "bad" = none ∧
    computeXMLDiffTokensStr parseStub "bad" "<root/>" = .error .malformedXml ∧
    computeXMLDiffTokensStr parseStub "<root/>" "bad" = .error .malformedXml :=
  ⟨rfl, (c8_malformed_fatal parseStub "bad" "<root/>").1 rfl,
   (c8_malformed_fatal parseStub "<root/>" "bad").2 (.mk "root" [] "" []) rfl rfl⟩

/-- C10.  Confirmed: the token list returned by `computeXMLDiffTokens` does
not depend on the incoming module state — both memo maps are cleared on
entry and the id counter is reset by each parse — so a second call on any
inputs returns exactly what a fresh first call returns. -/
theorem c10_stateless (ms1 ms2 : ModuleState) (ta tb : RawNode) :
    (computeXMLDiffTokensSt ms1 ta tb).1 = (computeXMLDiffTokensSt ms2 ta tb).1 ∧
    (computeXMLDiffTokensSt ms1 ta tb).1 = computeXMLDiffTokens ta tb := by
  constructor
  · rfl
  · show (computeXMLDiffTokensSt ms1 ta tb).1 = computeXMLDiffTokens ta tb
    unfold computeXMLDiffTokensSt computeXMLDiffTokens parseTree
    cases hA : assignIds ta 1 with
    | mk a na =>
      cases hB : assignIds tb 1 with
      | mk b nb =>
        simp only []
        split
        · rfl
        · split <;> rfl

/-! ### No-phantom-edit lemmas (towards C9) -/

theorem emitAttrKey_noPhantom (a b : List (String × String)) (path k : String)
    (t : XMLDiffToken) (ht : t ∈ emitAttrKey a b path k) : tokNoPhantom t := by
  unfold emitAttrKey at ht
  split at ht
  · simp only [List.mem_singleton] at ht
    subst ht
    intro hc
    simp [XMLDiffToken.editType] at hc
  · simp only [List.mem_singleton] at ht
    subst ht
    intro hc
    simp [XMLDiffToken.editType] at hc
  · split at ht
    · simp only [List.mem_singleton] at ht
      subst ht
      intro _
      exact ⟨_, _, rfl, rfl, by assumption⟩
    · simp at ht

theorem emitAttrDiffsGo_noPhantom (a b : List (String × String)) (path : String)
    (ks : List String) (t : XMLDiffToken) (ht : t ∈ emitAttrDiffsGo a b path ks) :
    tokNoPhantom t := by
  induction ks with
  | nil => simp [emitAttrDiffsGo] at ht
  | cons k ks ih =>
    simp only [emitAttrDiffsGo, List.mem_append] at ht
    rcases ht with h | h
    · exact emitAttrKey_noPhantom a b path k t h
    · exact ih h

theorem emitContentDiff_noPhantom (aT bT path : String)
    (t : XMLDiffToken) (ht : t ∈ emitContentDiff aT bT path) : tokNoPhantom t := by
  unfold emitContentDiff at ht
  split at ht
  · simp at ht
  · split at ht
    · simp only [List.mem_singleton] at ht
      subst ht
      intro hc
      simp [XMLDiffToken.editType] at hc
    · split at ht
      · simp only [List.mem_singleton] at ht
        subst ht
        intro hc
        simp [XMLDiffToken.editType] at hc
      · split at ht
        · simp only [List.mem_singleton] at ht
          subst ht
          intro _
          exact ⟨aT, bT, rfl, rfl, by assumption⟩
        · simp at ht

theorem elemToken_noPhantom_insert (xp nm : String) :
    tokNoPhantom (insertElemToken xp nm) := by
  intro hc
  simp [insertElemToken, XMLDiffToken.editType] at hc

theorem elemToken_noPhantom_delete (xp nm : String) :
    tokNoPhantom (deleteElemToken xp nm) := by
  intro hc
  simp [deleteElemToken, XMLDiffToken.editType] at hc

theorem dnAssign_noPhantom (fuel : Nat)
    (dn : UNode → UNode → String → Memo → Except DiffErr (List XMLDiffToken × Memo))
    (hdn : ∀ x y xpx stx toks stx', dn x y xpx stx = .ok (toks, stx') →
      ∀ t ∈ toks, tokNoPhantom t)
    (aL bL : List UNode) (nm xp : String) (mat : List (List Nat)) :
    ∀ (entries : List (Nat × Option Nat)) (st : Memo) toks st',
      dnAssign fuel dn aL bL nm xp mat entries st = .ok (toks, st') →
      ∀ t ∈ toks, tokNoPhantom t := by
  intro entries
  induction entries with
  | nil =>
    intro st toks st' h t ht
    simp only [dnAssign, Except.ok.injEq, Prod.mk.injEq] at h
    rw [← h.1] at ht
    simp at ht
  | cons e rest ih =>
    obtain ⟨i, oj⟩ := e
    intro st toks st' h t ht
    cases oj with
    | none =>
      simp only [dnAssign] at h
      exact ih st toks st' h t ht
    | some j =>
      simp only [dnAssign] at h
      split at h
      · -- matched pair i < |aL|, j < |bL|
        split at h
        · -- pairCost < delIns: recurse into the pair
          split at h
          · exact absurd h (by simp)
          · rename_i tmst heq
            split at h
            · exact absurd h (by simp)
            · rename_i trst heq2
              simp only [Except.ok.injEq, Prod.mk.injEq] at h
              rw [← h.1] at ht
              rcases List.mem_append.mp ht with hm | hm
              · exact hdn _ _ _ _ _ _ heq t hm
              · exact ih _ _ _ heq2 t hm
        · -- delete + insert pair
          split at h
          · exact absurd h (by simp)
          · rename_i trst heq
            simp only [Except.ok.injEq, Prod.mk.injEq] at h
            rw [← h.1] at ht
            simp only [List.mem_cons] at ht
            rcases ht with rfl | rfl | hm
            · exact elemToken_noPhantom_delete _ _
            · exact elemToken_noPhantom_insert _ _
            · exact ih _ _ _ heq t hm
      · -- unmatched row: delete
        split at h
        · split at h
          · exact absurd h (by simp)
          · rename_i trst heq
            simp only [Except.ok.injEq, Prod.mk.injEq] at h
            rw [← h.1] at ht
            simp only [List.mem_cons] at ht
            rcases ht with rfl | hm
            · exact elemToken_noPhantom_delete _ _
            · exact ih _ _ _ heq t hm
        · split at h
          · split at h
            · exact absurd h (by simp)
            · rename_i trst heq
              simp only [Except.ok.injEq, Prod.mk.injEq] at h
              rw [← h.1] at ht
              simp only [List.mem_cons] at ht
              rcases ht with rfl | hm
              · exact elemToken_noPhantom_insert _ _
              · exact ih _ _ _ heq t hm
          · exact ih _ _ _ h t ht

theorem dnGroups_noPhantom (fuel : Nat)
    (dn : UNode → UNode → String → Memo → Except DiffErr (List XMLDiffToken × Memo))
    (hdn : ∀ x y xpx stx toks stx', dn x y xpx stx = .ok (toks, stx') →
      ∀ t ∈ toks, tokNoPhantom t)
    (ac bc : List UNode) (xp : String) :
    ∀ (names : List String) (st : Memo) toks st',
      dnGroups fuel dn ac bc xp names st = .ok (toks, st') →
      ∀ t ∈ toks, tokNoPhantom t := by
  intro names
  induction names with
  | nil =>
    intro st toks st' h t ht
    simp only [dnGroups, Except.ok.injEq, Prod.mk.injEq] at h
    rw [← h.1] at ht
    simp at ht
  | cons nm rest ih =>
    intro st toks st' h t ht
    simp only [dnGroups] at h
    split at h
    · -- pure inserts
      split at h
      · exact absurd h (by simp)
      · rename_i trst heq
        simp only [Except.ok.injEq, Prod.mk.injEq] at h
        rw [← h.1] at ht
        rcases List.mem_append.mp ht with hm | hm
        · obtain ⟨c, -, hc⟩ := List.mem_map.mp hm
          rw [← hc]
          exact elemToken_noPhantom_insert _ _
        · exact ih _ _ _ heq t hm
    · split at h
      · -- pure deletes
        split at h
        · exact absurd h (by simp)
        · rename_i trst heq
          simp only [Except.ok.injEq, Prod.mk.injEq] at h
          rw [← h.1] at ht
          rcases List.mem_append.mp ht with hm | hm
          · obtain ⟨c, -, hc⟩ := List.mem_map.mp hm
            rw [← hc]
            exact elemToken_noPhantom_delete _ _
          · exact ih _ _ _ heq t hm
      · -- mixed: matrix, assignment, then the remaining groups
        split at h
        · exact absurd h (by simp)
        · rename_i matst heq1
          split at h
          · exact absurd h (by simp)
          · rename_i tmst heq2
            split at h
            · exact absurd h (by simp)
            · rename_i trst heq3
              simp only [Except.ok.injEq, Prod.mk.injEq] at h
              rw [← h.1] at ht
              rcases List.mem_append.mp ht with hm | hm
              · exact dnAssign_noPhantom fuel dn hdn _ _ _ _ _ _ _ _ _ heq2 t hm
              · exact ih _ _ _ heq3 t hm

theorem diffNodes_noPhantom :
    ∀ (fuel : Nat) (a b : UNode) (xp : String) (st : Memo) toks st',
      diffNodes fuel a b xp st = .ok (toks, st') →
      ∀ t ∈ toks, tokNoPhantom t := by
  intro fuel
  induction fuel with
  | zero =>
    intro a b xp st toks st' h
    exact absurd h (by simp [diffNodes])
  | succ fuel ih =>
    intro a b xp st toks st' h t ht
    simp only [diffNodes] at h
    split at h
    · exact absurd h (by simp)
    · rename_i t2st heq
      simp only [Except.ok.injEq, Prod.mk.injEq] at h
      rw [← h.1] at ht
      rcases List.mem_append.mp ht with hm | hm
      · rcases List.mem_append.mp hm with hm2 | hm2
        · exact emitAttrDiffsGo_noPhantom _ _ _ _ t hm2
        · exact emitContentDiff_noPhantom _ _ _ t hm2
      · exact dnGroups_noPhantom fuel _ (fun x y xpx stx tk stx' hh => ih x y xpx stx tk stx' hh)
          _ _ _ _ _ _ _ heq t hm

/-- C9.  Confirmed: every CHANGE token returned by `computeXMLDiffTokens` —
attribute or content — carries both an old and a new value and the two are
different strings: attribute CHANGE tokens are emitted only under
`a[k] !== b[k]` and content CHANGE tokens only under `aText !== bText`, and
element tokens are never CHANGE. -/
theorem c9_no_phantom_changes (ta tb : RawNode) (toks : List XMLDiffToken)
    (h : computeXMLDiffTokens ta tb = .ok toks) :
    ∀ t ∈ toks, tokNoPhantom t := by
  intro t ht
  simp only [computeXMLDiffTokens] at h
  split at h
  · simp only [Except.ok.injEq] at h
    rw [← h] at ht
    simp only [List.mem_cons] at ht
    rcases ht with rfl | rfl | hm
    · exact elemToken_noPhantom_delete _ _
    · exact elemToken_noPhantom_insert _ _
    · simp at hm
  · split at h
    · exact absurd h (by simp)
    · rename_i tkst heq
      simp only [Except.ok.injEq] at h
      rw [← h] at ht
      exact diffNodes_noPhantom _ _ _ _ _ _ _ heq t ht

/-- C9, witness: the CHANGE token of the `<note>A</note><note>B</note>`
versus `<note>A</note><note>C</note>` diff has distinct old and new
values. -/
theorem c9_no_phantom_changes_witness :
    tokNoPhantom
      { editType := .CHANGE, nodeType := .CONTENT,
        xpath := "/root/note/text()",
        oldValue := some "B", newValue := some "C" } :=
  c9_no_phantom_changes docNotesAB docNotesAC _ rfl _ (List.mem_singleton.mpr rfl)

/-! ### Frame lemmas for the overlay projector (towards C6 and C7) -/

mutual

theorem diffOnlyColor_refl : ∀ x, diffOnlyColor x x = true
  | .text s => by simp [diffOnlyColor]
  | .elem nm as cs => by
    simp only [diffOnlyColor, diffOnlyColorList_refl cs, Bool.and_eq_true,
      beq_self_eq_true, true_and]
    split <;> simp

theorem diffOnlyColorList_refl : ∀ l, diffOnlyColorList l l = true
  | [] => by simp [diffOnlyColorList]
  | c :: cs => by
    simp [diffOnlyColorList, diffOnlyColor_refl c, diffOnlyColorList_refl cs]

end

mutual

theorem diffOnlyColor_trans : ∀ x y z, diffOnlyColor x y = true →
    diffOnlyColor y z = true → diffOnlyColor x z = true
  | .text s, .text t, .text u => by
    simp only [diffOnlyColor, beq_iff_eq]
    exact fun h1 h2 => h1.trans h2
  | .text _, .text _, .elem _ _ _ => by simp [diffOnlyColor]
  | .text _, .elem _ _ _, .text _ => by simp [diffOnlyColor]
  | .text _, .elem _ _ _, .elem _ _ _ => by simp [diffOnlyColor]
  | .elem _ _ _, .text _, .text _ => by simp [diffOnlyColor]
  | .elem _ _ _, .text _, .elem _ _ _ => by simp [diffOnlyColor]
  | .elem _ _ _, .elem _ _ _, .text _ => by simp [diffOnlyColor]
  | .elem nm as cs, .elem nm' as' cs', .elem nm'' as'' cs'' => by
    simp only [diffOnlyColor, Bool.and_eq_true, beq_iff_eq]
    rintro ⟨⟨rfl, hl1⟩, ha1⟩ ⟨⟨rfl, hl2⟩, ha2⟩
    refine ⟨⟨rfl, diffOnlyColorList_trans cs cs' cs'' hl1 hl2⟩, ?_⟩
    cases hc : colorable nm <;>
      simp only [hc, if_true, if_false, beq_iff_eq, Bool.false_eq_true,
        ite_false, ite_true] at ha1 ha2 ⊢ <;>
      exact ha1.trans ha2

theorem diffOnlyColorList_trans : ∀ l m n, diffOnlyColorList l m = true →
    diffOnlyColorList m n = true → diffOnlyColorList l n = true
  | [], [], [] => by simp [diffOnlyColorList]
  | [], [], _ :: _ => by simp [diffOnlyColorList]
  | [], _ :: _, _ => by simp [diffOnlyColorList]
  | _ :: _, [], _ => by simp [diffOnlyColorList]
  | _ :: _, _ :: _, [] => by simp [diffOnlyColorList]
  | a :: l, b :: m, c :: n => by
    simp only [diffOnlyColorList, Bool.and_eq_true]
    rintro ⟨h1, hl1⟩ ⟨h2, hl2⟩
    exact ⟨diffOnlyColor_trans a b c h1 h2, diffOnlyColorList_trans l m n hl1 hl2⟩

end

theorem eraseColor_cons (k v : String) (l : List (String × String)) :
    eraseColor ((k, v) :: l) =
      if k = "color" then eraseColor l else (k, v) :: eraseColor l := by
  simp only [eraseColor, List.filter_cons]
  by_cases hk : k = "color"
  · simp [hk]
  · simp [hk]

theorem eraseColor_setAttrList_color (as : List (String × String)) (c : String) :
    eraseColor (setAttrList as "color" c) = eraseColor as := by
  induction as with
  | nil => simp [setAttrList, eraseColor]
  | cons kv rest ih =>
    obtain ⟨k0, v0⟩ := kv
    by_cases hk : k0 = "color"
    · subst hk
      simp [setAttrList, eraseColor_cons]
    · simp only [setAttrList, if_neg hk, eraseColor_cons, if_neg hk, ih]

theorem diffOnlyColorList_set (cs : List XNode) (i : Nat) (x : XNode)
    (h : ∀ ch, cs[i]? = some ch → diffOnlyColor ch x = true) :
    diffOnlyColorList cs (cs.set i x) = true := by
  induction cs generalizing i with
  | nil => simp [diffOnlyColorList]
  | cons c rest ih =>
    cases i with
    | zero =>
      simp only [List.set]
      simp only [diffOnlyColorList, Bool.and_eq_true]
      exact ⟨h c (by simp), diffOnlyColorList_refl rest⟩
    | succ i =>
      simp only [List.set]
      simp only [diffOnlyColorList, Bool.and_eq_true]
      exact ⟨diffOnlyColor_refl c, ih i (fun ch hch => h ch (by simpa using hch))⟩

theorem diffOnlyColor_setColorAt (p : List Nat) (d : XNode) (c : String)
    (h : colorableAt d p = true) : diffOnlyColor d (setColorAt d p c) = true := by
  induction p generalizing d with
  | nil =>
    cases d with
    | text s => simp [colorableAt, getAt] at h
    | elem nm as cs =>
      have hc : colorable nm = true := by
        simpa [colorableAt, getAt] using h
      simp only [setColorAt, diffOnlyColor, Bool.and_eq_true, beq_self_eq_true,
        diffOnlyColorList_refl cs, true_and]
      simp [hc, eraseColor_setAttrList_color]
  | cons i rest ih =>
    cases d with
    | text s => simp [colorableAt, getAt, XNode.childNodes] at h
    | elem nm as cs =>
      cases hg : cs[i]? with
      | none =>
        exfalso
        simp only [colorableAt, getAt, XNode.childNodes, hg] at h
        exact Bool.false_ne_true h
      | some ch =>
        have hch : colorableAt ch rest = true := by
          simp only [colorableAt, getAt, XNode.childNodes, hg] at h
          exact h
        simp only [setColorAt, XNode.childNodes, hg]
        simp only [diffOnlyColor, Bool.and_eq_true, beq_self_eq_true, true_and]
        constructor
        · refine diffOnlyColorList_set cs i _ ?_
          intro ch' hch'
          rw [hg] at hch'
          cases hch'
          exact ih ch hch
        · split <;> simp

theorem diffOnlyColor_elem_elim {na nb : String} {aa ab : List (String × String)}
    {ca cb : List XNode} (h : diffOnlyColor (.elem na aa ca) (.elem nb ab cb) = true) :
    na = nb ∧ diffOnlyColorList ca cb = true := by
  simp only [diffOnlyColor, Bool.and_eq_true, beq_iff_eq] at h
  exact ⟨h.1.1, h.1.2⟩

theorem diffOnlyColor_tag (x y : XNode) (h : diffOnlyColor x y = true) :
    x.tag? = y.tag? := by
  cases x <;> cases y <;> simp_all [diffOnlyColor, XNode.tag?, Bool.and_eq_true]

theorem diffOnlyColor_childNodes (x y : XNode) (h : diffOnlyColor x y = true) :
    diffOnlyColorList x.childNodes y.childNodes = true := by
  cases x <;> cases y <;>
    simp_all [diffOnlyColor, XNode.childNodes, diffOnlyColorList, Bool.and_eq_true]

theorem diffOnlyColorList_get (l m : List XNode) (h : diffOnlyColorList l m = true) :
    ∀ i : Nat, (l[i]? = none ∧ m[i]? = none) ∨
      ∃ a b, l[i]? = some a ∧ m[i]? = some b ∧ diffOnlyColor a b = true := by
  induction l generalizing m with
  | nil =>
    cases m with
    | nil => intro i; left; simp
    | cons b m => simp [diffOnlyColorList] at h
  | cons a l ih =>
    cases m with
    | nil => simp [diffOnlyColorList] at h
    | cons b m =>
      simp only [diffOnlyColorList, Bool.and_eq_true] at h
      intro i
      cases i with
      | zero =>
        right
        refine ⟨a, b, ?_, ?_, h.1⟩ <;> simp
      | succ i =>
        have := ih m h.2 i
        simpa using this

theorem getAt_rel (p : List Nat) (x y : XNode) (h : diffOnlyColor x y = true) :
    (getAt x p = none ∧ getAt y p = none) ∨
      ∃ a b, getAt x p = some a ∧ getAt y p = some b ∧ diffOnlyColor a b = true := by
  induction p generalizing x y with
  | nil => right; exact ⟨x, y, rfl, rfl, h⟩
  | cons i rest ih =>
    have hl := diffOnlyColorList_get _ _ (diffOnlyColor_childNodes x y h) i
    rcases hl with ⟨h1, h2⟩ | ⟨a, b, h1, h2, hab⟩
    · left
      constructor <;> simp [getAt, h1, h2]
    · have := ih a b hab
      simpa [getAt, h1, h2] using this

theorem elemChildIdx_congr (l m : List XNode) (h : diffOnlyColorList l m = true) :
    ∀ nm k idx, elemChildIdx l nm k idx = elemChildIdx m nm k idx := by
  induction l generalizing m with
  | nil =>
    cases m with
    | nil => intro nm k idx; rfl
    | cons b m => simp [diffOnlyColorList] at h
  | cons a l ih =>
    cases m with
    | nil => simp [diffOnlyColorList] at h
    | cons b m =>
      simp only [diffOnlyColorList, Bool.and_eq_true] at h
      obtain ⟨hab, hlm⟩ := h
      intro nm k idx
      cases a with
      | text s =>
        cases b with
        | text t => simp only [elemChildIdx]; exact ih m hlm nm k (idx + 1)
        | elem nb ab cb => simp [diffOnlyColor] at hab
      | elem na aa ca =>
        cases b with
        | text t => simp [diffOnlyColor] at hab
        | elem nb ab cb =>
          obtain ⟨rfl, -⟩ := diffOnlyColor_elem_elim hab
          simp only [elemChildIdx]
          by_cases hnm : na = nm
          · simp only [if_pos hnm]
            by_cases hk : k = 1
            · simp [hk]
            · simp only [if_neg hk]
              exact ih m hlm nm (k - 1) (idx + 1)
          · simp only [if_neg hnm]
            exact ih m hlm nm k (idx + 1)

theorem resolveBelow_congr (segs : List (String × Nat)) :
    ∀ (x y : XNode) (acc : List Nat), diffOnlyColor x y = true →
      resolveBelow x segs acc = resolveBelow y segs acc := by
  induction segs with
  | nil => intro x y acc h; rfl
  | cons s rest ih =>
    obtain ⟨nm, k⟩ := s
    intro x y acc h
    simp only [resolveBelow]
    by_cases hk : k = 0
    · simp [hk]
    · simp only [if_neg hk]
      have hcn := diffOnlyColor_childNodes x y h
      rw [elemChildIdx_congr _ _ hcn nm k 0]
      cases hidx : elemChildIdx y.childNodes nm k 0 with
      | none => rfl
      | some i =>
        rcases diffOnlyColorList_get _ _ hcn i with ⟨h1, h2⟩ | ⟨a, b, h1, h2, hab⟩
        · simp [h1, h2]
        · simp only [h1, h2]
          exact ih a b (acc ++ [i]) hab

theorem findElementFromXPath_congr (x y : XNode) (h : diffOnlyColor x y = true)
    (s : String) : findElementFromXPath x s = findElementFromXPath y s := by
  unfold findElementFromXPath
  cases parseXPathSegs (cleanXPath s) with
  | none => rfl
  | some segs =>
    simp only [resolveFromDoc]
    cases segs with
    | nil => rfl
    | cons s0 rest =>
      obtain ⟨nm, k⟩ := s0
      rw [diffOnlyColor_tag x y h]
      by_cases hcond : y.tag? = some nm ∧ k = 1
      · simp only [if_pos hcond]
        exact resolveBelow_congr rest x y [] h
      · simp only [if_neg hcond]

theorem colorableAt_congr (x y : XNode) (h : diffOnlyColor x y = true)
    (p : List Nat) : colorableAt x p = colorableAt y p := by
  unfold colorableAt
  rcases getAt_rel p x y h with ⟨h1, h2⟩ | ⟨a, b, h1, h2, hab⟩
  · simp [h1, h2]
  · simp only [h1, h2]
    cases a with
    | text s =>
      cases b with
      | text t => rfl
      | elem nb ab cb => simp [diffOnlyColor] at hab
    | elem na aa ca =>
      cases b with
      | text t => simp [diffOnlyColor] at hab
      | elem nb ab cb =>
        obtain ⟨rfl, -⟩ := diffOnlyColor_elem_elim hab
        rfl

theorem findColorableParentGo_congr (x y : XNode) (h : diffOnlyColor x y = true) :
    ∀ (fuel : Nat) (p : List Nat),
      findColorableParentGo x fuel p = findColorableParentGo y fuel p := by
  intro fuel
  induction fuel with
  | zero => intro p; rfl
  | succ fuel ih =>
    intro p
    simp only [findColorableParentGo]
    rcases getAt_rel p x y h with ⟨h1, h2⟩ | ⟨a, b, h1, h2, hab⟩
    · simp [h1, h2]
    · simp only [h1, h2]
      cases a with
      | text s =>
        cases b with
        | text t => rfl
        | elem nb ab cb => simp [diffOnlyColor] at hab
      | elem na aa ca =>
        cases b with
        | text t => simp [diffOnlyColor] at hab
        | elem nb ab cb =>
          obtain ⟨rfl, -⟩ := diffOnlyColor_elem_elim hab
          cases hc : colorable na with
          | true => simp [hc]
          | false =>
            cases he : p.isEmpty with
            | true => simp [hc, he]
            | false => simp [hc, he, ih p.dropLast]

theorem findColorableParent_congr (x y : XNode) (h : diffOnlyColor x y = true)
    (p : List Nat) : findColorableParent x p = findColorableParent y p :=
  findColorableParentGo_congr x y h (p.length + 1) p

theorem findColorableParentGo_colorable (d : XNode) :
    ∀ (fuel : Nat) (p q : List Nat),
      findColorableParentGo d fuel p = some q → colorableAt d q = true := by
  intro fuel
  induction fuel with
  | zero => intro p q h; simp [findColorableParentGo] at h
  | succ fuel ih =>
    intro p q h
    simp only [findColorableParentGo] at h
    split at h
    · rename_i nm attrs children hg
      split at h
      · cases h
        simp only [colorableAt, hg]
        assumption
      · split at h
        · cases h
        · exact ih p.dropLast q h
    · cases h

theorem findColorableParent_colorable (d : XNode) (p q : List Nat)
    (h : findColorableParent d p = some q) : colorableAt d q = true :=
  findColorableParentGo_colorable d (p.length + 1) p q h

/-- One projector step only recolors colorable elements: both result
documents stay in the `diffOnlyColor` relation to the originals. -/
theorem processToken_diffOnly (o0 n0 o n : XNode) (us : List XMLDiffToken)
    (tok : XMLDiffToken)
    (ho : diffOnlyColor o0 o = true) (hn : diffOnlyColor n0 n = true) :
    diffOnlyColor o0 (processToken o n us tok).1 = true ∧
    diffOnlyColor n0 (processToken o n us tok).2.1 = true := by
  unfold processToken
  by_cases hIns : tok.nodeType = .ELEMENT ∧ tok.editType = .INSERT
  · simp only [if_pos hIns]
    cases hr : findElementFromXPath n tok.xpath with
    | none => exact ⟨ho, hn⟩
    | some p =>
      by_cases hc : colorableAt n p = true
      · simp only [if_pos hc]
        exact ⟨ho, diffOnlyColor_trans n0 n _ hn (diffOnlyColor_setColorAt p n _ hc)⟩
      · simp only [if_neg hc]
        exact ⟨ho, hn⟩
  · simp only [if_neg hIns]
    by_cases hDel : tok.nodeType = .ELEMENT ∧ tok.editType = .DELETE
    · simp only [if_pos hDel]
      cases hr : findElementFromXPath o tok.xpath with
      | none => exact ⟨ho, hn⟩
      | some p =>
        by_cases hc : colorableAt o p = true
        · simp only [if_pos hc]
          exact ⟨diffOnlyColor_trans o0 o _ ho (diffOnlyColor_setColorAt p o _ hc), hn⟩
        · simp only [if_neg hc]
          exact ⟨ho, hn⟩
    · simp only [if_neg hDel]
      have hOld : diffOnlyColor o0
          (match (findElementFromXPath o tok.xpath).bind (findColorableParent o) with
           | some p => setColorAt o p COLOR_CHANGE
           | none => o) = true := by
        cases hop : (findElementFromXPath o tok.xpath).bind (findColorableParent o) with
        | none => exact ho
        | some p =>
          obtain ⟨el, -, hfp⟩ := Option.bind_eq_some.mp hop
          exact diffOnlyColor_trans o0 o _ ho
            (diffOnlyColor_setColorAt p o _ (findColorableParent_colorable o el p hfp))
      have hNew : diffOnlyColor n0
          (match (findElementFromXPath n tok.xpath).bind (findColorableParent n) with
           | some p => setColorAt n p COLOR_CHANGE
           | none => n) = true := by
        cases hnp : (findElementFromXPath n tok.xpath).bind (findColorableParent n) with
        | none => exact hn
        | some p =>
          obtain ⟨el, -, hfp⟩ := Option.bind_eq_some.mp hnp
          exact diffOnlyColor_trans n0 n _ hn
            (diffOnlyColor_setColorAt p n _ (findColorableParent_colorable n el p hfp))
      split <;> exact ⟨hOld, hNew⟩

/-- One projector step appends the token to `unusedTokens` exactly when the
token colors nothing, a condition that can be decided against the original
documents because recoloring changes neither resolution nor tags. -/
theorem processToken_unused (o0 n0 o n : XNode) (us : List XMLDiffToken)
    (tok : XMLDiffToken)
    (ho : diffOnlyColor o0 o = true) (hn : diffOnlyColor n0 n = true) :
    (processToken o n us tok).2.2 =
      us ++ (if colorsNothing o0 n0 tok then [tok] else []) := by
  have hreso : findElementFromXPath o tok.xpath = findElementFromXPath o0 tok.xpath :=
    (findElementFromXPath_congr o0 o ho tok.xpath).symm
  have hresn : findElementFromXPath n tok.xpath = findElementFromXPath n0 tok.xpath :=
    (findElementFromXPath_congr n0 n hn tok.xpath).symm
  unfold processToken colorsNothing
  by_cases hIns : tok.nodeType = .ELEMENT ∧ tok.editType = .INSERT
  · simp only [if_pos hIns, hresn]
    cases hr : findElementFromXPath n0 tok.xpath with
    | none => simp
    | some p =>
      have hcc : colorableAt n0 p = colorableAt n p := colorableAt_congr n0 n hn p
      by_cases hc : colorableAt n p = true
      · simp [hc, hcc]
      · simp [hc, hcc]
  · simp only [if_neg hIns]
    by_cases hDel : tok.nodeType = .ELEMENT ∧ tok.editType = .DELETE
    · simp only [if_pos hDel, hreso]
      cases hr : findElementFromXPath o0 tok.xpath with
      | none => simp
      | some p =>
        have hcc : colorableAt o0 p = colorableAt o p := colorableAt_congr o0 o ho p
        by_cases hc : colorableAt o p = true
        · simp [hc, hcc]
        · simp [hc, hcc]
    · simp only [if_neg hDel, hreso, hresn]
      have hbo : (findElementFromXPath o0 tok.xpath).bind (findColorableParent o) =
          (findElementFromXPath o0 tok.xpath).bind (findColorableParent o0) := by
        cases findElementFromXPath o0 tok.xpath with
        | none => rfl
        | some el => simp [Option.bind, findColorableParent_congr o0 o ho el]
      have hbn : (findElementFromXPath n0 tok.xpath).bind (findColorableParent n) =
          (findElementFromXPath n0 tok.xpath).bind (findColorableParent n0) := by
        cases findElementFromXPath n0 tok.xpath with
        | none => rfl
        | some el => simp [Option.bind, findColorableParent_congr n0 n hn el]
      rw [hbo, hbn]
      cases hop : (findElementFromXPath o0 tok.xpath).bind (findColorableParent o0) <;>
        cases hnp : (findElementFromXPath n0 tok.xpath).bind (findColorableParent n0) <;>
        simp [Option.isNone]

/-- Loop invariant combining the frame and the unused-token
characterization for `processLoop`. -/
theorem processLoop_spec (o0 n0 : XNode) :
    ∀ (ts : List XMLDiffToken) (o n : XNode) (us : List XMLDiffToken),
      diffOnlyColor o0 o = true → diffOnlyColor n0 n = true →
      diffOnlyColor o0 (processLoop o n ts us).1 = true ∧
      diffOnlyColor n0 (processLoop o n ts us).2.1 = true ∧
      (processLoop o n ts us).2.2 = us ++ ts.filter (colorsNothing o0 n0) := by
  intro ts
  induction ts with
  | nil =>
    intro o n us ho hn
    exact ⟨ho, hn, by simp [processLoop]⟩
  | cons t ts ih =>
    intro o n us ho hn
    have hstep := processToken_diffOnly o0 n0 o n us t ho hn
    have hus := processToken_unused o0 n0 o n us t ho hn
    have hrec := ih (processToken o n us t).1 (processToken o n us t).2.1
      (processToken o n us t).2.2 hstep.1 hstep.2
    simp only [processLoop]
    refine ⟨hrec.1, hrec.2.1, ?_⟩
    rw [hrec.2.2, hus, List.filter_cons]
    by_cases hc : colorsNothing o0 n0 t = true
    · simp [hc]
    · simp [hc]

/-- C6.  Confirmed: for every pair of documents and every token list, the
two documents returned by `processMusicXMLDiff` stay in the
`diffOnlyColor` relation to the inputs — they differ only by added or
replaced `color` attributes on elements whose tag is in the colorable set;
no element, attribute or text is otherwise added, removed or reordered. -/
theorem c6_overlay_purity (o n : XNode) (ts : List XMLDiffToken) :
    diffOnlyColor o (processMusicXMLDiff o n ts).1 = true ∧
    diffOnlyColor n (processMusicXMLDiff o n ts).2.1 = true :=
  ⟨(processLoop_spec o n ts o n [] (diffOnlyColor_refl o) (diffOnlyColor_refl n)).1,
   (processLoop_spec o n ts o n [] (diffOnlyColor_refl o) (diffOnlyColor_refl n)).2.1⟩

/-- C7.  Confirmed: `processMusicXMLDiff` is a total function of its
inputs — resolution failure of a token's XPath never aborts it — and its
`unusedTokens` output is exactly the input-order sublist of tokens that
colored nothing on either required side. -/
theorem c7_unused_tokens_in_order (o n : XNode) (ts : List XMLDiffToken) :
    (processMusicXMLDiff o n ts).2.2 = ts.filter (colorsNothing o n) := by
  have h := (processLoop_spec o n ts o n []
    (diffOnlyColor_refl o) (diffOnlyColor_refl n)).2.2
  simpa [processMusicXMLDiff] using h

end ArrangementHub
